import Mathlib

/-!
Verification development for the Duet two-agent orchestrator.

The definitions below are a shallow embedding of the orchestrator's core:
the tolerant JSON extraction used for agent output, the guardrail
evaluator, the winner-patch apply step, the joint implementation loop,
the debate decision loop, the convergence loop, and the worktree
acquisition helpers.  Pure TypeScript functions become Lean functions;
the effectful loops become pure recursions over an explicit environment
(`Nat → _`) that supplies, per round, the observable results of external
agent/test/diff/apply calls; the working tree becomes a finite map from
paths to file contents.  Host builtins (JSON.parse, the regexp engine,
posix basename) are modelled from their documented behaviour, as noted
at each definition.
-/

namespace Duet

/-! ## Agents and decision winners (src/types.ts, src/git.ts) -/

inductive AgentName where
  | codex
  | claude
deriving DecidableEq, Repr

/-- `otherAgent` from git.ts: the unique other member of the two-agent pair. -/
def otherAgent : AgentName → AgentName
  | .codex => .claude
  | .claude => .codex

/-- `Decision["winner"]` values: `"codex" | "claude" | "neither"`. -/
inductive Winner where
  | codex
  | claude
  | neither
deriving DecidableEq, Repr

/-! ## Generic string helpers

JavaScript string primitives modelled over `List Char`.  JS indices are
UTF-16 code units while Lean chars are code points; the two agree on all
inputs used here (no surrogate pairs).
-/

/-- `String.prototype.split` with a single-character separator. -/
def splitChar : List Char → Char → List (List Char)
  | [], _ => [[]]
  | c :: t, sep =>
    let rest := splitChar t sep
    if c = sep then [] :: rest
    else
      match rest with
      | [] => [[c]]
      | h :: t' => (c :: h) :: t'

def jsSplitChar (s : String) (sep : Char) : List String :=
  (splitChar s.toList sep).map String.mk

/-- `String.prototype.startsWith`. -/
def strStartsWith (s pre : String) : Bool :=
  pre.toList.isPrefixOf s.toList

/-- `String.prototype.slice(n)` — drop the first `n` characters. -/
def strDrop (s : String) (n : Nat) : String :=
  String.mk (s.toList.drop n)

/-- `String.prototype.trim`: strip whitespace from both ends. -/
def jsTrim (s : String) : String :=
  String.mk
    (((s.toList.dropWhile Char.isWhitespace).reverse.dropWhile
        Char.isWhitespace).reverse)

/-- First index of character `c` in `cs` (`String.prototype.indexOf`). -/
def firstIdx : List Char → Char → Option Nat
  | [], _ => none
  | x :: xs, c => if x = c then some 0 else (firstIdx xs c).map (· + 1)

/-- Last index of character `c` in `cs` (`String.prototype.lastIndexOf`). -/
def lastIdx (cs : List Char) (c : Char) : Option Nat :=
  (firstIdx cs.reverse c).map (fun i => cs.length - 1 - i)

/-- Case-insensitive prefix test (letters compared lower-cased). -/
def isPrefixOfCI : List Char → List Char → Bool
  | [], _ => true
  | _ :: _, [] => false
  | p :: ps, h :: hs => p.toLower = h.toLower && isPrefixOfCI ps hs

/-- First index at which `pat` occurs case-insensitively in the haystack. -/
def findSubCI (pat : List Char) : List Char → Option Nat
  | [] => if isPrefixOfCI pat [] then some 0 else none
  | h :: t =>
    if isPrefixOfCI pat (h :: t) then some 0
    else (findSubCI pat t).map (· + 1)

/-- First index at which `pat` occurs (case-sensitively) in the haystack. -/
def findSub (pat : List Char) : List Char → Option Nat
  | [] => if pat.isPrefixOf ([] : List Char) then some 0 else none
  | h :: t =>
    if pat.isPrefixOf (h :: t) then some 0
    else (findSub pat t).map (· + 1)

/-- Substring containment over char lists: some suffix has `pat` as prefix. -/
def containsSub (pat : List Char) : List Char → Bool
  | [] => pat.isPrefixOf ([] : List Char)
  | h :: t => pat.isPrefixOf (h :: t) || containsSub pat t

/-- `pat` occurs somewhere inside `s` (models `String.prototype.includes`). -/
def strContains (s pat : String) : Bool :=
  containsSub pat.toList s.toList

/-- `replaceAll("\\", "/")` over a string. -/
def normSlashes (s : String) : String :=
  String.mk (s.toList.map (fun c => if c = '\\' then '/' else c))

/-- Modelled from the spec: node's `path.basename` for posix paths — the
part after the last separator, ignoring trailing separators (the host
`path` module is not part of this repository). -/
def posixBasename (p : String) : String :=
  let rcs := p.toList.reverse.dropWhile (· = '/')
  String.mk ((rcs.takeWhile (· ≠ '/')).reverse)

/-! ## A model of JSON values and `JSON.parse`

`safeJsonParse` in src/utils.ts wraps the host builtin `JSON.parse`,
returning `null` on a parse exception.  Modelled from the spec: JSON
values as an inductive type and `JSON.parse` as a fuelled
recursive-descent parser (numbers restricted to integers; enough of the
builtin's documented behaviour for every input used by the claims).
-/

inductive Json where
  | null
  | bool (b : Bool)
  | num (n : Int)
  | str (s : String)
  | arr (elems : List Json)
  | obj (fields : List (String × Json))
deriving Repr

/-- JavaScript truthiness of a JSON value (`null`, `false`, `0` and the
empty string are falsy; objects and arrays are always truthy). -/
def Json.truthy : Json → Bool
  | .null => false
  | .bool b => b
  | .num n => n ≠ 0
  | .str s => s ≠ ""
  | .arr _ => true
  | .obj _ => true

/-- Property access `j[k]`: defined only on objects; duplicate keys keep
the last occurrence, as `JSON.parse` does. -/
def Json.getField : Json → String → Option Json
  | .obj fs, k => ((fs.filter (fun e => e.1 = k)).getLast?).map (·.2)
  | _, _ => none

/-- JavaScript `===` between two independently parsed JSON values:
primitives compare by value; two separately parsed objects or arrays are
distinct references and never strictly equal. -/
def jsStrictEq : Json → Json → Bool
  | .null, .null => true
  | .bool a, .bool b => a = b
  | .num a, .num b => a = b
  | .str a, .str b => a = b
  | _, _ => false

/-- String conversion used by template literals (`${x}`); arrays are
approximated by comma-joining their element displays. -/
def Json.display : Json → String
  | .null => "null"
  | .bool true => "true"
  | .bool false => "false"
  | .num n => toString n
  | .str s => s
  | .arr es => String.intercalate "," (es.attach.map (fun e => e.1.display))
  | .obj _ => "[object Object]"
decreasing_by
  simp_wf
  have := List.sizeOf_lt_of_mem e.2
  omega

/-- `${j.k}` for a possibly-missing field (missing displays "undefined"). -/
def fieldDisplay (j : Json) (k : String) : String :=
  match j.getField k with
  | some v => v.display
  | none => "undefined"

def skipWS (cs : List Char) : List Char :=
  cs.dropWhile (fun c => c.isWhitespace)

def hexVal (c : Char) : Option Nat :=
  if '0' ≤ c ∧ c ≤ '9' then some (c.toNat - '0'.toNat)
  else if 'a' ≤ c ∧ c ≤ 'f' then some (c.toNat - 'a'.toNat + 10)
  else if 'A' ≤ c ∧ c ≤ 'F' then some (c.toNat - 'A'.toNat + 10)
  else none

/-- Parse the body of a JSON string literal (opening quote consumed). -/
def parseJsonString : Nat → List Char → Option (String × List Char)
  | 0, _ => none
  | _, [] => none
  | fuel + 1, c :: rest =>
    let cont := fun (ch : Char) (rs : List Char) =>
      (parseJsonString fuel rs).map (fun r => (String.mk (ch :: r.1.toList), r.2))
    if c = '"' then some ("", rest)
    else if c = '\\' then
      match rest with
      | [] => none
      | e :: rest' =>
        if e = '"' then cont '"' rest'
        else if e = '\\' then cont '\\' rest'
        else if e = '/' then cont '/' rest'
        else if e = 'n' then cont '\n' rest'
        else if e = 't' then cont '\t' rest'
        else if e = 'r' then cont '\r' rest'
        else if e = 'b' then cont (Char.ofNat 8) rest'
        else if e = 'f' then cont (Char.ofNat 12) rest'
        else if e = 'u' then
          match rest' with
          | h1 :: h2 :: h3 :: h4 :: rest'' =>
            match hexVal h1, hexVal h2, hexVal h3, hexVal h4 with
            | some a, some b, some c', some d =>
              cont (Char.ofNat (((a * 16 + b) * 16 + c') * 16 + d)) rest''
            | _, _, _, _ => none
          | _ => none
        else none
    else cont c rest
termination_by structural fuel cs => fuel

/-- Digits to a natural number. -/
def digitsToNat (ds : List Char) : Nat :=
  ds.foldl (fun acc d => acc * 10 + (d.toNat - '0'.toNat)) 0

mutual

/-- One JSON value starting at the given characters; returns the value
and the unconsumed remainder. -/
def parseJsonVal : Nat → List Char → Option (Json × List Char)
  | 0, _ => none
  | fuel + 1, cs =>
    match skipWS cs with
    | [] => none
    | c :: rest =>
      if c = 'n' then
        if "ull".toList.isPrefixOf rest then some (.null, rest.drop 3) else none
      else if c = 't' then
        if "rue".toList.isPrefixOf rest then some (.bool true, rest.drop 3) else none
      else if c = 'f' then
        if "alse".toList.isPrefixOf rest then some (.bool false, rest.drop 4) else none
      else if c = '"' then
        (parseJsonString (fuel + 1) rest).map (fun r => (.str r.1, r.2))
      else if c = '-' then
        match rest with
        | d :: _ =>
          if d.isDigit then
            let ds := rest.takeWhile (·.isDigit)
            some (.num (-(digitsToNat ds : Int)), rest.dropWhile (·.isDigit))
          else none
        | [] => none
      else if c.isDigit then
        let ds := (c :: rest).takeWhile (·.isDigit)
        some (.num (digitsToNat ds : Int), (c :: rest).dropWhile (·.isDigit))
      else if c = '[' then
        match skipWS rest with
        | ']' :: rest' => some (.arr [], rest')
        | _ => (parseJsonItems fuel rest).map (fun r => (.arr r.1, r.2))
      else if c = Char.ofNat 123 then
        match skipWS rest with
        | c' :: rest' =>
          if c' = Char.ofNat 125 then some (.obj [], rest')
          else (parseJsonFields fuel rest).map (fun r => (.obj r.1, r.2))
        | [] => none
      else none
termination_by structural fuel cs => fuel

/-- Comma-separated array items up to `]`. -/
def parseJsonItems : Nat → List Char → Option (List Json × List Char)
  | 0, _ => none
  | fuel + 1, cs =>
    match parseJsonVal fuel cs with
    | none => none
    | some (v, rest) =>
      match skipWS rest with
      | ',' :: rest' =>
        (parseJsonItems fuel rest').map (fun r => (v :: r.1, r.2))
      | ']' :: rest' => some ([v], rest')
      | _ => none
termination_by structural fuel cs => fuel

/-- Comma-separated `"key": value` fields up to the closing brace. -/
def parseJsonFields : Nat → List Char → Option (List (String × Json) × List Char)
  | 0, _ => none
  | fuel + 1, cs =>
    match skipWS cs with
    | '"' :: rest =>
      match parseJsonString (fuel + 1) rest with
      | none => none
      | some (k, rest') =>
        match skipWS rest' with
        | ':' :: rest'' =>
          match parseJsonVal fuel rest'' with
          | none => none
          | some (v, rest3) =>
            match skipWS rest3 with
            | ',' :: rest4 =>
              (parseJsonFields fuel rest4).map (fun r => ((k, v) :: r.1, r.2))
            | c :: rest4 =>
              if c = Char.ofNat 125 then some ([(k, v)], rest4) else none
            | [] => none
        | _ => none
    | _ => none
termination_by structural fuel cs => fuel

end

/-- Modelled from the spec: the host builtin `JSON.parse`, as wrapped by
`safeJsonParse` in src/utils.ts — `none` models a thrown `SyntaxError`
(trailing non-whitespace input is an error). -/
def jsonParse (s : String) : Option Json :=
  let cs := s.toList
  match parseJsonVal (cs.length + 1) cs with
  | some (j, rest) => if (skipWS rest).isEmpty then some j else none
  | none => none

/-- JS truthiness of a `T | null` value. -/
def truthyOpt : Option Json → Bool
  | some j => j.truthy
  | none => false

/-! ## `extractJson` (src/utils.ts, lines 38–60) -/

/-- Group 1 of the fence regexp
match against three-backtick json fences (case-insensitive): the text
between the first case-insensitive occurrence of the opening fence and
the first closing fence after it, with surrounding whitespace stripped
by the greedy whitespace matchers around the lazy group. -/
def fencedContent (value : String) : Option String :=
  let cs := value.toList
  let fenceOpen := "```json".toList
  match findSubCI fenceOpen cs with
  | none => none
  | some i =>
    let rest := cs.drop (i + fenceOpen.length)
    match findSub "```".toList rest with
    | none => none
    | some j => some (jsTrim (String.mk (rest.take j)))

/-- The second extraction tier of `extractJson`: parse the fenced block
content if the (truthy, i.e. non-empty) group parsed to a truthy value. -/
def fencedTier (value : String) : Option Json :=
  match fencedContent value with
  | none => none
  | some c =>
    if c = "" then none
    else
      let parsed := jsonParse c
      if truthyOpt parsed then parsed else none

/-- The substring from the first opening brace to the last closing brace,
when both exist in that order (`value.slice(firstBrace, lastBrace + 1)`). -/
def braceSpan (value : String) : Option String :=
  let cs := value.toList
  match firstIdx cs (Char.ofNat 123), lastIdx cs (Char.ofNat 125) with
  | some fb, some lb =>
    if fb < lb then some (String.mk ((cs.drop fb).take (lb + 1 - fb))) else none
  | _, _ => none

/-- `extractJson` from src/utils.ts: direct parse of the trimmed text,
then the fenced-block tier, then the brace-span tier.  The first two
tiers are accepted only when the parse result is JS-truthy; the third
tier's parse result is returned as-is. -/
def extractJson (value : String) : Option Json :=
  let direct := jsonParse (jsTrim value)
  if truthyOpt direct then direct
  else
    match fencedTier value with
    | some j => some j
    | none =>
      match braceSpan value with
      | some s => jsonParse s
      | none => none

/-! ## Diff statistics and changed-file extraction (src/git.ts) -/

structure DiffStats where
  added : Nat
  removed : Nat
deriving DecidableEq, Repr

/-- `summarizeDiff`: count `+`/`-` lines of a unified diff, skipping the
`+++ `/`--- ` file headers. -/
def summarizeDiff (diff : String) : DiffStats :=
  (jsSplitChar diff '\n').foldl
    (fun acc line =>
      if strStartsWith line "+++ " || strStartsWith line "--- " then acc
      else if strStartsWith line "+" then { acc with added := acc.added + 1 }
      else if strStartsWith line "-" then { acc with removed := acc.removed + 1 }
      else acc)
    ⟨0, 0⟩

/-- The `strip` closure of `extractChangedFilesFromDiff`: trim, drop a
trailing tab-separated timestamp, drop `a/`/`b/` git prefixes, drop the
root/worktree directory prefixes (plus one separator), normalise
backslashes and trim again.  `path.sep` is the posix `/`. -/
def stripDiffPath (rootDir worktreeDir : String) (value : String) : String :=
  let p := jsTrim value
  let p := if p.toList.contains '\t' then (jsSplitChar p '\t').headD p else p
  let p :=
    if strStartsWith p "a/" || strStartsWith p "b/" then strDrop p 2 else p
  let stripPre := fun (pre : String) (q : String) =>
    if strStartsWith q pre then
      let q := strDrop q pre.toList.length
      if strStartsWith q "/" then strDrop q 1 else q
    else q
  let p := stripPre worktreeDir (stripPre rootDir p)
  jsTrim (normSlashes p)

/-- Group 2 of the regexp match against
git diff headers: the target path after the first possible split of
`diff --git a/<lazy> b/<rest>` (the lazy group takes at least one
character, the rest is non-empty). -/
def gitHeaderTarget (line : String) : Option String :=
  let pre := "diff --git a/"
  if strStartsWith line pre then
    let rest := (strDrop line pre.toList.length).toList
    match findSub " b/".toList (rest.drop 1) with
    | none => none
    | some j =>
      let t := rest.drop (1 + j + 3)
      if t.isEmpty then none else some (String.mk t)
  else none

/-- Add to a JS `Set` modelled as an insertion-ordered duplicate-free
list. -/
def pushUnique (files : List String) (x : String) : List String :=
  if files.contains x then files else files ++ [x]

/-- Insertion sort on strings, modelling `Array.prototype.sort`'s default
lexicographic order. -/
def insertSorted (x : String) : List String → List String
  | [] => [x]
  | y :: ys => if x ≤ y then x :: y :: ys else y :: insertSorted x ys

def sortStrings (l : List String) : List String :=
  l.foldr insertSorted []

/-- `extractChangedFilesFromDiff`: collect target paths from the three
supported diff header styles (`diff --git`, `diff -ruN`, `+++`/`---`),
strip prefixes and timestamps, and return the sorted duplicate-free
non-empty paths. -/
def extractChangedFilesFromDiff (diff : String) (rootDir worktreeDir : String) :
    List String :=
  let strip := stripDiffPath rootDir worktreeDir
  let step := fun (files : List String) (line : String) =>
    if strStartsWith line "diff --git " then
      match gitHeaderTarget line with
      | some t => pushUnique files (strip t)
      | none => files
    else if strStartsWith line "diff -ruN " then
      let parts := (jsSplitChar line ' ').filter (fun s => s ≠ "")
      let left := parts.get? 2
      let pick :=
        match parts.get? 3 with
        | some r => if r ≠ "/dev/null" then some r else left
        | none => left
      match pick with
      | some q => if q ≠ "/dev/null" then pushUnique files (strip q) else files
      | none => files
    else if strStartsWith line "+++ " || strStartsWith line "--- " then
      let raw := jsTrim (strDrop line 4)
      if raw = "/dev/null" then files else pushUnique files (strip raw)
    else files
  let files := (jsSplitChar diff '\n').foldl step []
  sortStrings (files.filter (fun s => s ≠ ""))

/-! ## Guardrails (src/git.ts: `evaluateGuardrails`, `matchesGlob`) -/

/-- A character matched by the regexp `.` without the dot-all flag:
anything but a line terminator. -/
def jsDotChar (c : Char) : Bool :=
  !(c = '\n' || c = '\r' || c = Char.ofNat 0x2028 || c = Char.ofNat 0x2029)

/-- Anchored matching of the regexp produced by `globToRegExp`: every
pattern character is literal except `*`, which becomes `.*` (any
characters other than line terminators). -/
def globMatch (p s : List Char) : Bool :=
  match p, s with
  | [], [] => true
  | [], _ :: _ => false
  | c :: ps, t =>
    if c = '*' then
      globMatch ps t ||
        (match t with
         | [] => false
         | x :: xs => jsDotChar x && globMatch (c :: ps) xs)
    else
      match t with
      | [] => false
      | x :: xs => c = x && globMatch ps xs
termination_by p.length + s.length
decreasing_by
  all_goals simp_arith [*]

/-- `matchesGlob`: normalise separators; a pattern without a path
separator is matched against the basename only, then tested against the
anchored glob regexp. -/
def matchesGlob (glob relPath : String) : Bool :=
  let normalized := normSlashes relPath
  let target :=
    if glob.toList.contains '/' then normalized else posixBasename normalized
  globMatch glob.toList target.toList

structure GuardrailsConfig where
  enabled : Bool
  maxFilesChanged : Option Nat
  maxLinesAdded : Option Nat
  maxLinesRemoved : Option Nat
  forbiddenPaths : Option (List String)
  forbidDependencyChanges : Bool
  dependencyFiles : Option (List String)
deriving DecidableEq, Repr

/-- The builtin dependency-manifest/lockfile names used when the policy
does not list its own. -/
def builtinDependencyFiles : List String :=
  ["package.json", "package-lock.json", "pnpm-lock.yaml", "yarn.lock",
   "bun.lockb", "Cargo.toml", "Cargo.lock", "pyproject.toml",
   "poetry.lock", "requirements.txt", "go.mod", "go.sum"]

def msgTooManyFiles (n maxFiles : Nat) : String :=
  "Too many files changed (" ++ toString n ++ " > " ++ toString maxFiles ++ ")."

def msgTooManyAdded (n maxAdded : Nat) : String :=
  "Too many lines added (" ++ toString n ++ " > " ++ toString maxAdded ++ ")."

def msgTooManyRemoved (n maxRemoved : Nat) : String :=
  "Too many lines removed (" ++ toString n ++ " > " ++ toString maxRemoved ++ ")."

def msgForbidden (hit : List String) : String :=
  "Forbidden paths changed: " ++ String.intercalate ", " (hit.take 10) ++
    (if hit.length > 10 then " " else "")

def msgDependency (hits : List String) : String :=
  "Dependency files changed (not allowed): " ++ String.intercalate ", " hits

/-- The configured-or-builtin dependency file set, trimmed and with empty
entries dropped. -/
def effectiveDependencyFiles (g : GuardrailsConfig) : List String :=
  ((g.dependencyFiles.getD builtinDependencyFiles).map jsTrim).filter
    (fun p => p ≠ "")

/-- `evaluateGuardrails`: sequentially pushed violation messages, one
optional message per independent rule. -/
def evaluateGuardrails (g? : Option GuardrailsConfig) (changedFiles : List String)
    (stats : DiffStats) : List String :=
  match g? with
  | none => []
  | some g =>
    if !g.enabled then []
    else
      let maxFiles := g.maxFilesChanged.getD 50
      let maxAdded := g.maxLinesAdded.getD 2000
      let maxRemoved := g.maxLinesRemoved.getD 2000
      let v1 :=
        if changedFiles.length > maxFiles then
          [msgTooManyFiles changedFiles.length maxFiles]
        else []
      let v2 :=
        if stats.added > maxAdded then [msgTooManyAdded stats.added maxAdded]
        else []
      let v3 :=
        if stats.removed > maxRemoved then
          [msgTooManyRemoved stats.removed maxRemoved]
        else []
      let forbidden := (g.forbiddenPaths.getD []).filter (fun p => p ≠ "")
      let v4 :=
        if forbidden.length > 0 then
          let hit :=
            changedFiles.filter
              (fun f => forbidden.any (fun pat => matchesGlob pat f))
          if hit.length > 0 then [msgForbidden hit] else []
        else []
      let v5 :=
        if g.forbidDependencyChanges then
          let depFiles := effectiveDependencyFiles g
          let depHits := changedFiles.filter (fun f => depFiles.contains f)
          if depHits.length > 0 then [msgDependency depHits] else []
        else []
      v1 ++ v2 ++ v3 ++ v4 ++ v5

/-- The file-count rule in isolation: depends only on the policy and the
changed-file list. -/
def fileCountCheck (g : GuardrailsConfig) (changedFiles : List String) :
    List String :=
  let maxFiles := g.maxFilesChanged.getD 50
  if changedFiles.length > maxFiles then
    [msgTooManyFiles changedFiles.length maxFiles]
  else []

/-- The added-lines rule in isolation: depends only on the policy and the
diff statistics. -/
def linesAddedCheck (g : GuardrailsConfig) (stats : DiffStats) : List String :=
  let maxAdded := g.maxLinesAdded.getD 2000
  if stats.added > maxAdded then [msgTooManyAdded stats.added maxAdded] else []

/-- The removed-lines rule in isolation. -/
def linesRemovedCheck (g : GuardrailsConfig) (stats : DiffStats) : List String :=
  let maxRemoved := g.maxLinesRemoved.getD 2000
  if stats.removed > maxRemoved then
    [msgTooManyRemoved stats.removed maxRemoved]
  else []

/-- The forbidden-path glob rule in isolation. -/
def forbiddenPathsCheck (g : GuardrailsConfig) (changedFiles : List String) :
    List String :=
  let forbidden := (g.forbiddenPaths.getD []).filter (fun p => p ≠ "")
  if forbidden.length > 0 then
    let hit :=
      changedFiles.filter (fun f => forbidden.any (fun pat => matchesGlob pat f))
    if hit.length > 0 then [msgForbidden hit] else []
  else []

/-- The dependency-file protection rule in isolation. -/
def dependencyFilesCheck (g : GuardrailsConfig) (changedFiles : List String) :
    List String :=
  if g.forbidDependencyChanges then
    let depFiles := effectiveDependencyFiles g
    let depHits := changedFiles.filter (fun f => depFiles.contains f)
    if depHits.length > 0 then [msgDependency depHits] else []
  else []

/-! ## Worktree acquisition (src/git.ts `ensureWorktree`, workspace.ts
`copyWorkspace`)

The filesystem is modelled as a finite map from paths (segment lists) to
file contents; the first matching entry wins on lookup.
-/

abbrev FS := List (List String × String)

def fsGet (fs : FS) (p : List String) : Option String :=
  (fs.find? (fun e => e.1 = p)).map (·.2)

/-- The fixed housekeeping exclusion set (`DEFAULT_EXCLUDES`). -/
def defaultExcludes : List String :=
  [".git", ".orchestrator", "node_modules", "dist", "build"]

/-- The files of `src` whose top-level entry is not excluded — what
`copyWorkspace` copies. -/
def copiedPart (src : FS) (excludes : List String) : FS :=
  src.filter
    (fun e =>
      match e.1 with
      | [] => false
      | t :: _ => !excludes.contains t)

/-- `copyWorkspace`: `ensureDir` on the destination (no existence check)
followed by a forced recursive copy of each non-excluded top-level
entry.  Copied files overwrite destination files at the same path;
destination files not present in the copy survive.  The function has no
failure outcome for an already-existing destination. -/
def copyWorkspace (src dest : FS) (excludes : List String) : FS :=
  let copied := copiedPart src excludes
  copied ++ dest.filter (fun e => fsGet copied e.1 = none)

inductive WorktreeError where
  | alreadyExists
  | gitAddFailed
deriving DecidableEq, Repr

/-- `ensureWorktree`: fail if the destination path already exists, then
run `git worktree add` (whose success is the external observable
`gitAddOk`). -/
def ensureWorktree (destExists : Bool) (gitAddOk : Bool) :
    Except WorktreeError Unit :=
  if destExists then .error .alreadyExists
  else if gitAddOk then .ok () else .error .gitAddFailed

/-! ## The final apply step (src/git.ts `applyWinnerPatch`) -/

structure ApplyConfig where
  implementationMode : Option String
  guardrails : Option GuardrailsConfig
deriving Repr

/-- Observable results of the external calls made by `applyWinnerPatch`:
the content of `final/final.patch` (`none` when the file is missing), the
effect and output of `git apply` on the target tree, whether the source
worktree exists, and the tree produced by `syncWorkspace`. -/
structure ApplyEnv where
  finalPatch : Option String
  gitApply : FS → FS
  gitApplyLog : String
  sourceWorktreeExists : Bool
  syncResult : FS

structure ApplyOutcome where
  tree : FS
  applyLog : Option String
  threw : Bool

/-- The contents written to `final/apply.log` when guardrails block. -/
def blockedLog (violations : List String) : String :=
  "Guardrails blocked apply.\n\n" ++
    String.intercalate "\n" (violations.map (fun v => "- " ++ v)) ++ "\n"

/-- `applyWinnerPatch`: skip entirely for a `neither` winner outside
joint mode; evaluate guardrails on the final patch and block (writing
the block log, touching nothing) on any violation; otherwise apply via
`git apply` (git mode, skipped when the patch file is missing) or
`syncWorkspace` (non-git mode, throwing when the source worktree is
missing).  The post-apply test run does not modify the tree model. -/
def applyWinnerPatch (cfg : ApplyConfig) (winner : Winner)
    (rootDir wtDir : String) (isGit : Bool) (env : ApplyEnv) (tree : FS) :
    ApplyOutcome :=
  if cfg.implementationMode.getD "parallel" ≠ "joint" ∧ winner = .neither then
    ⟨tree, none, false⟩
  else
    let blocked :=
      match cfg.guardrails with
      | some g =>
        if g.enabled then
          let patchText := env.finalPatch.getD ""
          let files :=
            extractChangedFilesFromDiff patchText rootDir
              (if isGit then rootDir else wtDir)
          let stats := summarizeDiff patchText
          let violations := evaluateGuardrails (some g) files stats
          if violations.length > 0 then some (blockedLog violations) else none
        else none
      | none => none
    match blocked with
    | some log => ⟨tree, some log, false⟩
    | none =>
      if isGit then
        match env.finalPatch with
        | none => ⟨tree, none, false⟩
        | some _ => ⟨env.gitApply tree, some env.gitApplyLog, false⟩
      else
        if !env.sourceWorktreeExists then ⟨tree, none, true⟩
        else
          ⟨env.syncResult,
            some
              ("Synced worktree into workspace (non-git mode).\nSource: " ++
                wtDir ++ "\nTarget: " ++ rootDir ++ "\n"),
            false⟩

/-! ## The joint implementation loop (src/git.ts
`runImplementationPhaseJoint`) -/

/-- `resolveDriver`'s `configured` argument: `"auto" | AgentName`. -/
inductive DriverChoice where
  | auto
  | agent (a : AgentName)
deriving DecidableEq, Repr

structure Decision where
  winner : Winner
  executionDriver : Option AgentName
deriving DecidableEq, Repr

/-- `resolveDriver`: interactive override first, then a non-auto
configured driver, then the decision winner, defaulting to codex. -/
def resolveDriver (configured : Option DriverChoice) (decision : Decision) :
    AgentName :=
  match decision.executionDriver with
  | some a => a
  | none =>
    match configured with
    | some (.agent a) => a
    | _ =>
      match decision.winner with
      | .codex => .codex
      | .claude => .claude
      | .neither => .codex

/-- Per-round observables of the joint loop's external calls: the
navigator patch produced by `diffDirsBetween`, the exit code of the
driver-phase test run, whether `applyPatchToWorktree` succeeded, and the
exit code of the post-patch test run. -/
structure RoundObs where
  navigatorPatch : String
  driverTestExit : Int
  applyOk : Bool
  postTestExit : Int

/-- `config.implementation` fields used by the joint loop, with
`config.tests?.enabled` alongside; optional fields default at point of
use exactly as in the source. -/
structure JointConfig where
  maxRounds : Option Nat
  testsDuringLoop : Option Bool
  testsEnabled : Bool
  applyNavigatorPatch : Option String
  swapDriverOnFail : Option Bool
  swapDriverEachRound : Option Bool
deriving Repr

def JointConfig.testsOn (cfg : JointConfig) : Bool :=
  cfg.testsDuringLoop.getD false && cfg.testsEnabled

/-- `testExit` as it stands after the post-patch test run (the in-loop
variable consulted by the stop conditions): the second test run
overwrites the first whenever tests run at all. -/
def roundTestExit (cfg : JointConfig) (obs : RoundObs) : Option Int :=
  if cfg.testsOn then some obs.postTestExit else none

/-- `applied`: a patch-apply is attempted only in `auto` mode on a
non-empty patch, and succeeds iff the external apply succeeded. -/
def roundApplied (cfg : JointConfig) (obs : RoundObs) : Bool :=
  cfg.applyNavigatorPatch.getD "auto" = "auto" &&
    jsTrim obs.navigatorPatch ≠ "" && obs.applyOk

/-- `lastApplyOk = applied || !navigatorPatch.trim()`. -/
def roundApplyOk (cfg : JointConfig) (obs : RoundObs) : Bool :=
  roundApplied cfg obs || jsTrim obs.navigatorPatch = ""

/-- Stop condition (a): empty navigator patch and tests absent or
passing. -/
def roundConverged (cfg : JointConfig) (obs : RoundObs) : Bool :=
  jsTrim obs.navigatorPatch = "" &&
    (roundTestExit cfg obs = none || roundTestExit cfg obs = some 0)

/-- `testExit && testExit !== 0`: the last test run happened and
failed. -/
def roundTestFailed (cfg : JointConfig) (obs : RoundObs) : Bool :=
  match roundTestExit cfg obs with
  | some e => e ≠ 0
  | none => false

/-- A round at which the loop stops (conditions (a) or (b)), which
depends only on the configuration and that round's observables. -/
def stopsAt (cfg : JointConfig) (obs : RoundObs) : Bool :=
  roundConverged cfg obs || !roundApplyOk cfg obs

/-- The role reassignment run after a non-stopping round: swap on
failing tests if configured, else swap each round while rounds remain,
else keep (`driver = navigator; navigator = otherAgent(driver)`). -/
def jointSwapStep (cfg : JointConfig) (maxR round : Nat)
    (d n : AgentName) (obs : RoundObs) : AgentName × AgentName :=
  if cfg.swapDriverOnFail.getD false && roundTestFailed cfg obs then
    (n, otherAgent n)
  else if cfg.swapDriverEachRound.getD false && round < maxR then
    (n, otherAgent n)
  else (d, n)

inductive StopReason where
  | converged
  | applyFailed
  | exhausted
deriving DecidableEq, Repr

/-- The role assignment snapshot of one executed round. -/
structure RoundRec where
  round : Nat
  driver : AgentName
  navigator : AgentName
deriving DecidableEq, Repr

/-- The `meta.json` artifact of the joint phase. -/
structure JointMeta where
  driver : AgentName
  navigator : AgentName
  rounds : Nat
deriving DecidableEq, Repr

structure JointRun where
  trace : List RoundRec
  finalDriver : AgentName
  finalNavigator : AgentName
  reason : StopReason
  meta : JointMeta

/-- The `for (round = 1; round <= maxRounds; ...)` body of the joint
loop, with `rem` the number of rounds still allowed including the
current one. -/
def jointGo (cfg : JointConfig) (env : Nat → RoundObs) (maxR : Nat) :
    AgentName → AgentName → Nat → Nat →
      List RoundRec × AgentName × AgentName × StopReason
  | d, n, _, 0 => ([], d, n, .exhausted)
  | d, n, round, rem + 1 =>
    let obs := env round
    let entry : RoundRec := ⟨round, d, n⟩
    if roundConverged cfg obs then ([entry], d, n, .converged)
    else if !roundApplyOk cfg obs then ([entry], d, n, .applyFailed)
    else
      let dn := jointSwapStep cfg maxR round d n obs
      let rest := jointGo cfg env maxR dn.1 dn.2 (round + 1) rem
      (entry :: rest.1, rest.2)

/-- The joint implementation loop from the initial driver, with the
`meta.json` record written after it (`rounds` is the configured
`maxRounds`, not the number of executed rounds). -/
def runJoint (cfg : JointConfig) (env : Nat → RoundObs) (d0 : AgentName) :
    JointRun :=
  let maxR := cfg.maxRounds.getD 1
  let r := jointGo cfg env maxR d0 (otherAgent d0) 1 maxR
  ⟨r.1, r.2.1, r.2.2.1, r.2.2.2, ⟨r.2.1, r.2.2.1, maxR⟩⟩

/-! ## The debate decision loop (src/git.ts `runDecisionPhase`, mode
`debate`) -/

/-- The judge outputs supplied by the external agents: the two round-0
texts and the per-round texts. -/
structure DebateEnv where
  initCodex : String
  initClaude : String
  roundCodex : Nat → String
  roundClaude : Nat → String

structure DebateOutcome where
  winner : Json
  rationale : String
  roundDirs : Nat

/-- The consensus test on a pair of judge texts
(`codexPick?.winner && claudePick?.winner && codexPick.winner ===
claudePick.winner`), returning both parsed objects on success. -/
def consensusPick (codexText claudeText : String) : Option (Json × Json × Json) :=
  match extractJson codexText, extractJson claudeText with
  | some jc, some jl =>
    match jc.getField "winner", jl.getField "winner" with
    | some wc, some wl =>
      if wc.truthy && wl.truthy && jsStrictEq wc wl then some (wc, jc, jl)
      else none
    | _, _ => none
  | _, _ => none

def initialConsensusRationale (jc jl : Json) : String :=
  "Consensus after initial judgment. Codex: " ++ fieldDisplay jc "rationale" ++
    " Claude: " ++ fieldDisplay jl "rationale"

def roundConsensusRationale (round : Nat) (jc jl : Json) : String :=
  "Consensus after debate round " ++ toString round ++ ". Codex: " ++
    fieldDisplay jc "rationale" ++ " Claude: " ++ fieldDisplay jl "rationale"

/-- The `for (round = 1; round <= rounds; ...)` debate loop; each
entered iteration creates one `debate_round_<n>` directory.  Exhaustion
yields the `neither` decision with the no-convergence rationale. -/
def debateGo (env : DebateEnv) : Nat → Nat → DebateOutcome
  | _, 0 =>
    ⟨Json.str "neither", "Judges did not converge after debate rounds.", 0⟩
  | round, rem + 1 =>
    match consensusPick (env.roundCodex round) (env.roundClaude round) with
    | some wjj => ⟨wjj.1, roundConsensusRationale round wjj.2.1 wjj.2.2, 1⟩
    | none =>
      let rest := debateGo env (round + 1) rem
      ⟨rest.winner, rest.rationale, rest.roundDirs + 1⟩

/-- The debate decision: consensus on the initial judgments
short-circuits with zero debate rounds, otherwise up to
`debateRounds ?? 1` critique rounds run. -/
def runDebate (debateRounds : Option Nat) (env : DebateEnv) : DebateOutcome :=
  match consensusPick env.initCodex env.initClaude with
  | some wjj => ⟨wjj.1, initialConsensusRationale wjj.2.1 wjj.2.2, 0⟩
  | none => debateGo env 1 (debateRounds.getD 1)

/-! ## Review summaries and the convergence loop (src/git.ts
`runConvergePhase`, `mergeReviewSummaries`, `truncateInline`) -/

structure Issue where
  id : String
  summary : String
  file : Option String
  suggestedFix : Option String
deriving DecidableEq, Repr

structure ReviewSummary where
  blockers : List Issue
  warnings : List Issue
  notes : String
deriving DecidableEq, Repr

/-- One whitespace group under the regexp replace of
whitespace-then-newline runs: a run containing a newline collapses to a
newline plus its part after the last newline. -/
def wsGroupCollapse (g : List Char) : List Char :=
  match g with
  | [] => []
  | c :: _ =>
    if c.isWhitespace && g.contains '\n' then
      '\n' :: ((g.reverse.takeWhile (fun x => x ≠ '\n')).reverse)
    else g

/-- The whitespace normalisation step of `truncateInline`. -/
def replaceWSNewline (s : String) : String :=
  String.mk
    (((s.toList.splitBy (fun a b => a.isWhitespace = b.isWhitespace)).map
        wsGroupCollapse).flatten)

/-- `truncateInline` from git.ts. -/
def truncateInline (text : String) (maxChars : Nat) : String :=
  let normalized := jsTrim (replaceWSNewline text)
  if maxChars = 0 then ""
  else if normalized.toList.length ≤ maxChars then normalized
  else String.mk (normalized.toList.take maxChars) ++ " "

/-- `mergeReviewSummaries`: concatenate blockers and warnings, join the
non-empty trimmed notes with a separator and truncate. -/
def mergeReviewSummaries (summaries : List ReviewSummary) : ReviewSummary :=
  let blockers := (summaries.map (·.blockers)).flatten
  let warnings := (summaries.map (·.warnings)).flatten
  let notes :=
    (summaries.map (fun s => jsTrim s.notes)).filter (fun s => s ≠ "")
  ⟨blockers, warnings, truncateInline (String.intercalate " | " notes) 240⟩

/-- Per-round observables of the convergence loop: the critic's review
as parsed by `parseReviewSummary` (a deterministic function of the
external critic text; `none` when unparseable) and the round's test exit
code. -/
structure ConvObs where
  criticReview : Option ReviewSummary
  testExit : Int

structure ConvConfig where
  convergeEnabled : Bool
  reviewEnabled : Bool
  implementationMode : Option String
  testsEnabled : Bool
  maxRounds : Option Nat
deriving Repr

/-- `finalReview` as recomputed each round: the merge of the singleton
parsed critic review — a function of the current round's critic output
only. -/
def convFresh (obs : ConvObs) : ReviewSummary :=
  mergeReviewSummaries obs.criticReview.toList

/-- `lastTestExit` as consulted by the stop condition. -/
def convTestExit (cfg : ConvConfig) (obs : ConvObs) : Option Int :=
  if cfg.testsEnabled then some obs.testExit else none

/-- `okByReview && okByTests`. -/
def convStop (rev : ReviewSummary) (te : Option Int) : Bool :=
  rev.blockers.length = 0 && (te = none || te = some 0)

/-- The role assignment, fresh review and test result of one executed
convergence round. -/
structure ConvRoundRec where
  round : Nat
  fixer : AgentName
  critic : AgentName
  review : ReviewSummary
  testExit : Option Int
deriving DecidableEq, Repr

/-- The `for (round = 1; round <= maxRounds; ...)` body of the
convergence loop: record the round, stop on no blockers with tests
absent or passing, otherwise swap fixer/critic while rounds remain. -/
def convGo (cfg : ConvConfig) (env : Nat → ConvObs) (maxR : Nat) :
    AgentName → AgentName → Nat → Nat → List ConvRoundRec
  | _, _, _, 0 => []
  | f, c, round, rem + 1 =>
    let obs := env round
    let review := convFresh obs
    let te := convTestExit cfg obs
    let entry : ConvRoundRec := ⟨round, f, c, review, te⟩
    if convStop review te then [entry]
    else
      let fc := if round < maxR then (c, otherAgent c) else (f, c)
      entry :: convGo cfg env maxR fc.1 fc.2 (round + 1) rem

/-- Entry state of the convergence phase: the decision winner, the
canonical worktree's existence, the per-reviewer parsed review files,
the pre-convergence test exit code and the resolved fixer. -/
structure ConvEntry where
  winner : Winner
  worktreeExists : Bool
  reviewerParses : List (Option ReviewSummary)
  preTestExit : Int
  fixer0 : AgentName

/-- `needsConverge`: the initial merged review has blockers, or the
pre-convergence test run happened and failed. -/
def convNeeds (cfg : ConvConfig) (entry : ConvEntry) : Bool :=
  let initialReview := mergeReviewSummaries (entry.reviewerParses.filterMap id)
  let lastTestExit : Option Int :=
    if cfg.testsEnabled then some entry.preTestExit else none
  initialReview.blockers.length > 0 ||
    (lastTestExit ≠ none && lastTestExit ≠ some 0)

/-- `runConvergePhase` as the list of executed rounds: the gating
returns an empty trace; otherwise the loop runs from round 1 with bound
`max 1 (maxRounds ?? 1)`. -/
def runConverge (cfg : ConvConfig) (entry : ConvEntry) (env : Nat → ConvObs) :
    List ConvRoundRec :=
  if !cfg.convergeEnabled then []
  else if !cfg.reviewEnabled then []
  else if
      cfg.implementationMode.getD "parallel" ≠ "joint" ∧
        entry.winner = .neither then []
  else if !entry.worktreeExists then []
  else if !convNeeds cfg entry then []
  else
    convGo cfg env (max 1 (cfg.maxRounds.getD 1)) entry.fixer0
      (otherAgent entry.fixer0) 1 (max 1 (cfg.maxRounds.getD 1))

/-! ## Helper lemmas -/

theorem isPrefixOf_append :
    ∀ (pat a b : List Char), pat.isPrefixOf a = true →
      pat.isPrefixOf (a ++ b) = true
  | [], _, _, _ => by simp
  | p :: ps, [], _, h => by simp at h
  | p :: ps, x :: xs, b, h => by
    simp only [List.isPrefixOf_cons₂, List.cons_append, Bool.and_eq_true,
      beq_iff_eq] at h ⊢
    exact ⟨h.1, isPrefixOf_append ps xs b h.2⟩

theorem containsSub_append (pat : List Char) :
    ∀ (hay ex : List Char), containsSub pat hay = true →
      containsSub pat (hay ++ ex) = true
  | [], ex, h => by
    simp only [containsSub] at h
    cases pat with
    | nil =>
      cases ex with
      | nil => rfl
      | cons e es => simp [containsSub]
    | cons p ps => simp at h
  | h' :: t, ex, h => by
    simp only [containsSub, Bool.or_eq_true] at h
    rcases h with h | h
    · simp only [List.cons_append, containsSub, Bool.or_eq_true]
      exact Or.inl (isPrefixOf_append pat (h' :: t) ex h)
    · simp only [List.cons_append, containsSub, Bool.or_eq_true]
      exact Or.inr (containsSub_append pat t ex h)

theorem strContains_append_left (pre rest pat : String)
    (h : strContains pre pat = true) : strContains (pre ++ rest) pat = true := by
  unfold strContains at h ⊢
  have hd : (pre ++ rest).toList = pre.toList ++ rest.toList := rfl
  rw [hd]
  exact containsSub_append pat.toList pre.toList rest.toList h

/-! ## Claim C8 — tolerant three-tier JSON extraction -/

/-- C8 (amended): for every input string, `extractJson` tries the three
tiers in preference order — direct parse of the trimmed text, then the
```json fenced-block parse, then the parse of the first-to-last-brace
substring.  A tier's result is used only when it is JS-truthy for the
first two tiers, while the brace-span tier's parse result is returned
as-is; the result is null when no tier yields an accepted value. -/
theorem extractJson_three_tiers (value : String) :
    (truthyOpt (jsonParse (jsTrim value)) = true →
        extractJson value = jsonParse (jsTrim value)) ∧
      (∀ c, truthyOpt (jsonParse (jsTrim value)) = false →
          fencedContent value = some c → c ≠ "" →
          truthyOpt (jsonParse c) = true → extractJson value = jsonParse c) ∧
      (∀ s, truthyOpt (jsonParse (jsTrim value)) = false →
          fencedTier value = none → braceSpan value = some s →
          extractJson value = jsonParse s) ∧
      (truthyOpt (jsonParse (jsTrim value)) = false → fencedTier value = none →
        braceSpan value = none → extractJson value = none) := by
  refine ⟨?_, ?_, ?_, ?_⟩
  · intro h1
    simp [extractJson, h1]
  · intro c h1 hc hne hp
    rcases hj : jsonParse c with _ | j
    · rw [hj] at hp
      simp [truthyOpt] at hp
    · rw [hj] at hp
      have hf : fencedTier value = some j := by
        simp [fencedTier, hc, hne, hj, hp]
      simp [extractJson, h1, hf, hj]
  · intro s h1 hf hs
    simp [extractJson, h1, hf, hs]
  · intro h1 hf hb
    simp [extractJson, h1, hf, hb]

/-- C8 counterexample to the claim as stated: on input `"0"` the first
tier's parse yields a result (the number 0), yet `extractJson` returns
null because the parsed value is JS-falsy. -/
theorem extractJson_falsy_counterexample :
    extractJson "0" = none ∧ jsonParse (jsTrim "0") = some (Json.num 0) := by
  constructor <;> rfl

/-- Witness for `extractJson_three_tiers` at a concrete object input. -/
theorem extractJson_three_tiers_witness :
    extractJson "\x7b\"winner\": \"codex\"\x7d" =
      jsonParse (jsTrim "\x7b\"winner\": \"codex\"\x7d") :=
  (extractJson_three_tiers "\x7b\"winner\": \"codex\"\x7d").1 (by rfl)

/-! ## Claim C6 — guardrail evaluation: independent, all-reported rules -/

/-- With guardrails enabled, the sequentially pushed violation list is
the concatenation of the five independent rule checks. -/
theorem evaluateGuardrails_eq_checks (g : GuardrailsConfig)
    (files : List String) (stats : DiffStats) (hen : g.enabled = true) :
    evaluateGuardrails (some g) files stats =
      fileCountCheck g files ++ linesAddedCheck g stats ++
        linesRemovedCheck g stats ++ forbiddenPathsCheck g files ++
        dependencyFilesCheck g files := by
  simp [evaluateGuardrails, hen, fileCountCheck, linesAddedCheck,
    linesRemovedCheck, forbiddenPathsCheck, dependencyFilesCheck]

/-- C6: with guardrails enabled, the evaluation is exactly the
concatenation of the five rule checks, each a function of only its own
inputs — no rule short-circuits another, and every violated rule
reports; a glob pattern without a path separator is matched against the
basename only; the dependency rule fires exactly when some changed file
is a member of the configured-or-builtin dependency file set. -/
theorem evaluateGuardrails_independent_rules (g : GuardrailsConfig)
    (files : List String) (stats : DiffStats) (pat f : String)
    (hen : g.enabled = true) (hsep : pat.toList.contains '/' = false) :
    evaluateGuardrails (some g) files stats =
        fileCountCheck g files ++ linesAddedCheck g stats ++
          linesRemovedCheck g stats ++ forbiddenPathsCheck g files ++
          dependencyFilesCheck g files ∧
      matchesGlob pat f =
        globMatch pat.toList (posixBasename (normSlashes f)).toList ∧
      (dependencyFilesCheck g files ≠ [] ↔
        g.forbidDependencyChanges = true ∧
          ∃ x ∈ files, x ∈ effectiveDependencyFiles g) := by
  refine ⟨?_, ?_, ?_⟩
  · exact evaluateGuardrails_eq_checks g files stats hen
  · have hmem : ¬ ('/' ∈ pat.toList) := by
      intro hm
      have hcon : pat.toList.contains '/' = true :=
        List.contains_iff_exists_mem_beq.mpr ⟨'/', hm, by simp⟩
      rw [hsep] at hcon
      exact Bool.false_ne_true hcon
    simp only [matchesGlob]
    rw [if_neg (by simpa using hmem)]
  · rcases hdep : g.forbidDependencyChanges with _ | _
    · simp [dependencyFilesCheck, hdep]
    · simp only [dependencyFilesCheck, hdep, if_true, true_and]
      rcases hh : files.filter
          (fun x => (effectiveDependencyFiles g).contains x) with _ | ⟨y, ys⟩
      · simp only [hh, List.length_nil]
        constructor
        · intro hcon
          simp at hcon
        · rintro ⟨x, hx, hxd⟩
          have hxf : x ∈ files.filter
              (fun x => (effectiveDependencyFiles g).contains x) :=
            List.mem_filter.mpr ⟨hx, by simpa using hxd⟩
          rw [hh] at hxf
          simp at hxf
      · simp only [hh, List.length_cons]
        constructor
        · intro _
          have hy : y ∈ files.filter
              (fun x => (effectiveDependencyFiles g).contains x) := by
            rw [hh]; exact List.mem_cons_self y ys
          have hy2 := List.mem_filter.mp hy
          exact ⟨y, hy2.1, by simpa using hy2.2⟩
        · intro _
          simp

/-- Witness for `evaluateGuardrails_independent_rules` on a concrete
dependency-protecting policy. -/
theorem evaluateGuardrails_independent_rules_witness :
    evaluateGuardrails
          (some ⟨true, none, none, none, some ["docs/*"], true,
            some ["package.json"]⟩)
          ["package.json"] ⟨0, 0⟩ =
        fileCountCheck
            ⟨true, none, none, none, some ["docs/*"], true,
              some ["package.json"]⟩ ["package.json"] ++
          linesAddedCheck
            ⟨true, none, none, none, some ["docs/*"], true,
              some ["package.json"]⟩ ⟨0, 0⟩ ++
          linesRemovedCheck
            ⟨true, none, none, none, some ["docs/*"], true,
              some ["package.json"]⟩ ⟨0, 0⟩ ++
          forbiddenPathsCheck
            ⟨true, none, none, none, some ["docs/*"], true,
              some ["package.json"]⟩ ["package.json"] ++
          dependencyFilesCheck
            ⟨true, none, none, none, some ["docs/*"], true,
              some ["package.json"]⟩ ["package.json"] ∧
      matchesGlob "*.lock" "a/b/yarn.lock" =
        globMatch "*.lock".toList
          (posixBasename (normSlashes "a/b/yarn.lock")).toList ∧
      (dependencyFilesCheck
            ⟨true, none, none, none, some ["docs/*"], true,
              some ["package.json"]⟩ ["package.json"] ≠ [] ↔
        (⟨true, none, none, none, some ["docs/*"], true,
            some ["package.json"]⟩ : GuardrailsConfig).forbidDependencyChanges =
            true ∧
          ∃ x ∈ ["package.json"],
            x ∈ effectiveDependencyFiles
              ⟨true, none, none, none, some ["docs/*"], true,
                some ["package.json"]⟩) :=
  evaluateGuardrails_independent_rules _ _ _ _ _ (by rfl) (by rfl)

/-! ## Claim C7 — worktree acquisition and the already-exists guard -/

theorem fsGet_append (a b : FS) (p : List String) :
    fsGet (a ++ b) p =
      (match fsGet a p with
        | some v => some v
        | none => fsGet b p) := by
  unfold fsGet
  rw [List.find?_append]
  rcases hc : a.find? (fun e => e.1 = p) with _ | e <;> simp [hc]

theorem find?_filter_shadowed (p : List String) (copied : FS)
    (h : fsGet copied p = none) :
    ∀ dest : FS,
      (dest.filter (fun e => fsGet copied e.1 = none)).find?
          (fun e => e.1 = p) =
        dest.find? (fun e => e.1 = p)
  | [] => rfl
  | e :: t => by
    by_cases hk : e.1 = p
    · have hpass : fsGet copied e.1 = none := by rw [hk]; exact h
      rw [List.filter_cons_of_pos (by simpa using hpass),
        List.find?_cons_of_pos _ (by simpa using hk),
        List.find?_cons_of_pos _ (by simpa using hk)]
    · by_cases hpass : fsGet copied e.1 = none
      · rw [List.filter_cons_of_pos (by simpa using hpass),
          List.find?_cons_of_neg _ (by simpa using hk),
          List.find?_cons_of_neg _ (by simpa using hk)]
        exact find?_filter_shadowed p copied h t
      · rw [List.filter_cons_of_neg (by simpa using hpass),
          List.find?_cons_of_neg _ (by simpa using hk)]
        exact find?_filter_shadowed p copied h t

/-- C7 (amended): the already-exists reentrancy failure is the behaviour
of the native git-worktree backend only — `ensureWorktree` errors
exactly when the destination exists — while the directory-copy fallback
`copyWorkspace` has no existence check: it always produces the merged
tree in which copied non-excluded source files override destination
files and all other destination files survive. -/
theorem worktree_acquisition_guards (destExists gitAddOk : Bool)
    (src dest : FS) (excl : List String) (p : List String) :
    (ensureWorktree destExists gitAddOk = .error .alreadyExists ↔
        destExists = true) ∧
      fsGet (copyWorkspace src dest excl) p =
        (match fsGet (copiedPart src excl) p with
          | some v => some v
          | none => fsGet dest p) := by
  constructor
  · cases destExists <;> cases gitAddOk <;> simp [ensureWorktree]
  · rw [show copyWorkspace src dest excl =
        copiedPart src excl ++
          dest.filter (fun e => fsGet (copiedPart src excl) e.1 = none)
      from rfl]
    rw [fsGet_append]
    rcases hc : fsGet (copiedPart src excl) p with _ | v
    · have hsh :
          fsGet
              (dest.filter (fun e => fsGet (copiedPart src excl) e.1 = none))
              p =
            fsGet dest p :=
        congrArg (Option.map (fun x : List String × String => x.2))
          (find?_filter_shadowed p (copiedPart src excl) hc dest)
      simpa using hsh
    · simp

/-- C7 counterexample to the claim as stated: with a non-empty (existing)
destination, the directory-copy backend does not fail with an
already-exists error — it completes and returns the merged tree — while
the git backend does fail. -/
theorem copyWorkspace_no_reentrancy_guard :
    copyWorkspace [(["a.txt"], "new")] [(["b.txt"], "old")] defaultExcludes =
        [(["a.txt"], "new"), (["b.txt"], "old")] ∧
      ensureWorktree true true = .error .alreadyExists ∧
      ([(["b.txt"], "old")] : FS) ≠ [] := by
  refine ⟨by rfl, by rfl, by simp⟩

/-! ## Claim C1 — guardrails block the final apply -/

/-- C1: in a run with guardrails enabled, dependency-file protection on,
and a final patch whose changed files include a protected manifest, the
final apply step leaves the target working tree untouched (hence
byte-identical to its pre-run contents — no other phase writes outside
`.orchestrator` and the worktrees), throws nothing, and writes an apply
log carrying the explicit "blocked" marker instead of applying the
patch.  The run reaches the apply step with a non-`neither` winner or in
joint mode whenever a final patch exists. -/
theorem applyWinnerPatch_guardrails_block (g : GuardrailsConfig)
    (mode : Option String) (winner : Winner) (rootDir wtDir : String)
    (isGit : Bool) (env : ApplyEnv) (tree : FS) (f : String)
    (hen : g.enabled = true) (hdep : g.forbidDependencyChanges = true)
    (hmode : mode.getD "parallel" = "joint" ∨ winner ≠ .neither)
    (hf : f ∈ extractChangedFilesFromDiff (env.finalPatch.getD "") rootDir
        (if isGit then rootDir else wtDir))
    (hfd : f ∈ effectiveDependencyFiles g) :
    (applyWinnerPatch ⟨mode, some g⟩ winner rootDir wtDir isGit env
          tree).tree = tree ∧
      (applyWinnerPatch ⟨mode, some g⟩ winner rootDir wtDir isGit env
          tree).threw = false ∧
      ∃ log,
        (applyWinnerPatch ⟨mode, some g⟩ winner rootDir wtDir isGit env
              tree).applyLog = some log ∧
          strContains log "blocked" = true := by
  have hcond : ¬(mode.getD "parallel" ≠ "joint" ∧ winner = .neither) := by
    rcases hmode with h | h
    · intro hcontra
      exact hcontra.1 h
    · intro hcontra
      exact h hcontra.2
  have hdephits :
      ((extractChangedFilesFromDiff (env.finalPatch.getD "") rootDir
            (if isGit then rootDir else wtDir)).filter
          (fun x => (effectiveDependencyFiles g).contains x)) ≠ [] :=
    List.ne_nil_of_mem (List.mem_filter.mpr ⟨hf, by simpa using hfd⟩)
  have hv5 :
      dependencyFilesCheck g
          (extractChangedFilesFromDiff (env.finalPatch.getD "") rootDir
            (if isGit then rootDir else wtDir)) ≠ [] := by
    simp only [dependencyFilesCheck, hdep, if_true]
    rw [if_pos (List.length_pos.mpr hdephits)]
    simp
  have hvne :
      evaluateGuardrails (some g)
          (extractChangedFilesFromDiff (env.finalPatch.getD "") rootDir
            (if isGit then rootDir else wtDir))
          (summarizeDiff (env.finalPatch.getD "")) ≠ [] := by
    rw [evaluateGuardrails_eq_checks g _ _ hen]
    intro hnil
    simp only [List.append_eq_nil] at hnil
    exact hv5 hnil.2
  have hres :
      applyWinnerPatch ⟨mode, some g⟩ winner rootDir wtDir isGit env tree =
        ⟨tree,
          some
            (blockedLog
              (evaluateGuardrails (some g)
                (extractChangedFilesFromDiff (env.finalPatch.getD "") rootDir
                  (if isGit then rootDir else wtDir))
                (summarizeDiff (env.finalPatch.getD "")))),
          false⟩ := by
    simp only [applyWinnerPatch]
    rw [if_neg hcond]
    simp only [hen, if_true]
    rw [if_pos (List.length_pos.mpr hvne)]
  rw [hres]
  refine ⟨rfl, rfl, _, rfl, ?_⟩
  have h0 : strContains "Guardrails blocked apply.\n\n" "blocked" = true := by
    rfl
  have h1 :=
    strContains_append_left "Guardrails blocked apply.\n\n"
      (String.intercalate "\n"
        ((evaluateGuardrails (some g)
              (extractChangedFilesFromDiff (env.finalPatch.getD "") rootDir
                (if isGit then rootDir else wtDir))
              (summarizeDiff (env.finalPatch.getD ""))).map
          (fun v => "- " ++ v)))
      "blocked" h0
  exact strContains_append_left _ "\n" "blocked" h1

/-- Witness for `applyWinnerPatch_guardrails_block` on the concrete
scenario of the repository's guardrails test: a joint-mode run whose
final patch touches `package.json` under a policy protecting it. -/
theorem applyWinnerPatch_guardrails_block_witness :
    (applyWinnerPatch
          ⟨some "joint",
            some ⟨true, none, none, none, none, true, some ["package.json"]⟩⟩
          Winner.codex "/repo" "/repo/.orchestrator/worktrees/r/driver" true
          ⟨some "diff --git a/package.json b/package.json\n+x", id, "", true,
            []⟩
          [(["package.json"], "orig")]).tree = [(["package.json"], "orig")] ∧
      (applyWinnerPatch
          ⟨some "joint",
            some ⟨true, none, none, none, none, true, some ["package.json"]⟩⟩
          Winner.codex "/repo" "/repo/.orchestrator/worktrees/r/driver" true
          ⟨some "diff --git a/package.json b/package.json\n+x", id, "", true,
            []⟩
          [(["package.json"], "orig")]).threw = false ∧
      ∃ log,
        (applyWinnerPatch
            ⟨some "joint",
              some ⟨true, none, none, none, none, true, some ["package.json"]⟩⟩
            Winner.codex "/repo" "/repo/.orchestrator/worktrees/r/driver" true
            ⟨some "diff --git a/package.json b/package.json\n+x", id, "", true,
              []⟩
            [(["package.json"], "orig")]).applyLog = some log ∧
          strContains log "blocked" = true :=
  applyWinnerPatch_guardrails_block
    ⟨true, none, none, none, none, true, some ["package.json"]⟩ (some "joint")
    Winner.codex "/repo" "/repo/.orchestrator/worktrees/r/driver" true
    ⟨some "diff --git a/package.json b/package.json\n+x", id, "", true, []⟩
    [(["package.json"], "orig")] "package.json" (by rfl) (by rfl)
    (Or.inl (by rfl)) (by decide) (by decide)

/-! ## Claims C3 and C4 — the debate decision loop -/

/-- C3: if both judges' round-0 outputs parse to the same (truthy,
strictly equal) winner, that winner is the decision immediately: no
debate round directory is created, and the rationale references the
initial judgment. -/
theorem debate_initial_consensus_short_circuit (env : DebateEnv)
    (dr : Option Nat) (jc jl w w' : Json)
    (hc : extractJson env.initCodex = some jc)
    (hl : extractJson env.initClaude = some jl)
    (hwc : jc.getField "winner" = some w)
    (hwl : jl.getField "winner" = some w')
    (htc : w.truthy = true) (htl : w'.truthy = true)
    (heq : jsStrictEq w w' = true) :
    (runDebate dr env).winner = w ∧ (runDebate dr env).roundDirs = 0 ∧
      ∃ rest,
        (runDebate dr env).rationale =
          "Consensus after initial judgment. " ++ rest := by
  have hcp : consensusPick env.initCodex env.initClaude = some (w, jc, jl) := by
    simp [consensusPick, hc, hl, hwc, hwl, htc, htl, heq]
  refine ⟨?_, ?_, ?_⟩
  · simp [runDebate, hcp]
  · simp [runDebate, hcp]
  · refine
      ⟨"Codex: " ++ fieldDisplay jc "rationale" ++ " Claude: " ++
        fieldDisplay jl "rationale", ?_⟩
    have hrat : (runDebate dr env).rationale =
        initialConsensusRationale jc jl := by
      simp [runDebate, hcp]
    rw [hrat, initialConsensusRationale]
    simp only [← String.append_assoc]
    rfl

/-- Witness for `debate_initial_consensus_short_circuit` on two concrete
agreeing judge outputs. -/
theorem debate_initial_consensus_short_circuit_witness :
    (runDebate (some 3)
          ⟨"\x7b\"winner\": \"codex\", \"rationale\": \"a\"\x7d",
            "\x7b\"winner\": \"codex\", \"rationale\": \"b\"\x7d",
            fun _ => "", fun _ => ""⟩).winner = Json.str "codex" ∧
      (runDebate (some 3)
          ⟨"\x7b\"winner\": \"codex\", \"rationale\": \"a\"\x7d",
            "\x7b\"winner\": \"codex\", \"rationale\": \"b\"\x7d",
            fun _ => "", fun _ => ""⟩).roundDirs = 0 ∧
      ∃ rest,
        (runDebate (some 3)
            ⟨"\x7b\"winner\": \"codex\", \"rationale\": \"a\"\x7d",
              "\x7b\"winner\": \"codex\", \"rationale\": \"b\"\x7d",
              fun _ => "", fun _ => ""⟩).rationale =
          "Consensus after initial judgment. " ++ rest :=
  debate_initial_consensus_short_circuit
    ⟨"\x7b\"winner\": \"codex\", \"rationale\": \"a\"\x7d",
      "\x7b\"winner\": \"codex\", \"rationale\": \"b\"\x7d",
      fun _ => "", fun _ => ""⟩
    (some 3)
    (Json.obj [("winner", Json.str "codex"), ("rationale", Json.str "a")])
    (Json.obj [("winner", Json.str "codex"), ("rationale", Json.str "b")])
    (Json.str "codex") (Json.str "codex") (by rfl) (by rfl) (by rfl) (by rfl)
    (by rfl) (by rfl) (by rfl)

theorem debateGo_no_consensus (env : DebateEnv) :
    ∀ (rem start : Nat),
      (∀ k, start ≤ k → k < start + rem →
        consensusPick (env.roundCodex k) (env.roundClaude k) = none) →
      debateGo env start rem =
        ⟨Json.str "neither", "Judges did not converge after debate rounds.",
          rem⟩
  | 0, start, _ => rfl
  | rem + 1, start, h => by
    have h0 :
        consensusPick (env.roundCodex start) (env.roundClaude start) = none :=
      h start le_rfl (by omega)
    have hrest :=
      debateGo_no_consensus env rem (start + 1)
        (fun k hk1 hk2 => h k (by omega) (by omega))
    simp [debateGo, h0, hrest]

/-- C4: if the judges' parsed winners disagree (or fail to parse) on
round 0 and through every configured debate round, the decision winner
is "neither", the rationale reports no convergence, and exactly the
configured bound of round directories is created. -/
theorem debate_no_convergence (env : DebateEnv) (dr : Option Nat)
    (h0 : consensusPick env.initCodex env.initClaude = none)
    (hr : ∀ r, 1 ≤ r → r ≤ dr.getD 1 →
      consensusPick (env.roundCodex r) (env.roundClaude r) = none) :
    (runDebate dr env).winner = Json.str "neither" ∧
      (runDebate dr env).rationale =
        "Judges did not converge after debate rounds." ∧
      (runDebate dr env).roundDirs = dr.getD 1 := by
  have hgo :=
    debateGo_no_consensus env (dr.getD 1) 1 (fun k hk1 hk2 => hr k hk1 (by omega))
  simp [runDebate, h0, hgo]

/-- Witness for `debate_no_convergence`: unparseable judge outputs across
a two-round bound. -/
theorem debate_no_convergence_witness :
    (runDebate (some 2)
          ⟨"x", "y", fun _ => "x", fun _ => "y"⟩).winner = Json.str "neither" ∧
      (runDebate (some 2)
          ⟨"x", "y", fun _ => "x", fun _ => "y"⟩).rationale =
        "Judges did not converge after debate rounds." ∧
      (runDebate (some 2)
          ⟨"x", "y", fun _ => "x", fun _ => "y"⟩).roundDirs =
        (some 2 : Option Nat).getD 1 :=
  debate_no_convergence ⟨"x", "y", fun _ => "x", fun _ => "y"⟩ (some 2)
    (by rfl) (fun r h1 h2 => by rfl)

/-! ## Joint implementation loop lemmas -/

theorem jointGo_len (cfg : JointConfig) (env : Nat → RoundObs) (maxR : Nat) :
    ∀ (rem : Nat) (d n : AgentName) (round : Nat),
      (jointGo cfg env maxR d n round rem).1.length ≤ rem
  | 0, _, _, _ => by simp [jointGo]
  | rem + 1, d, n, round => by
    simp only [jointGo]
    split
    · simp
    · split
      · simp
      · simp only [List.length_cons]
        have h := jointGo_len cfg env maxR rem
          (jointSwapStep cfg maxR round d n (env round)).1
          (jointSwapStep cfg maxR round d n (env round)).2 (round + 1)
        omega

theorem jointGo_stop (cfg : JointConfig) (env : Nat → RoundObs) (maxR : Nat) :
    ∀ (rem s : Nat) (d n : AgentName) (r : Nat), s ≤ r → r < s + rem →
      (∀ k, s ≤ k → k < r → stopsAt cfg (env k) = false) →
      stopsAt cfg (env r) = true →
      (jointGo cfg env maxR d n s rem).1.length = r - s + 1 ∧
        (jointGo cfg env maxR d n s rem).2.2.2 =
          (if roundConverged cfg (env r) = true then StopReason.converged
           else StopReason.applyFailed)
  | 0, s, d, n, r, h1, h2, _, _ => absurd h2 (by omega)
  | rem + 1, s, d, n, r, h1, h2, hno, hstop => by
    by_cases hs : s = r
    · subst hs
      by_cases hcv : roundConverged cfg (env s) = true
      · simp [jointGo, hcv]
      · have hap : roundApplyOk cfg (env s) = false := by
          simp only [stopsAt, Bool.or_eq_true] at hstop
          rcases hstop with h | h
          · exact absurd h hcv
          · simpa using h
        simp [jointGo, hcv, hap]
    · have hslt : s < r := by omega
      have hnostop := hno s le_rfl hslt
      simp only [stopsAt, Bool.or_eq_true, not_or] at hnostop
      have hcv : roundConverged cfg (env s) = false := by
        rcases Bool.or_eq_false_iff.mp hnostop with ⟨h, _⟩
        exact h
      have hap : roundApplyOk cfg (env s) = true := by
        rcases Bool.or_eq_false_iff.mp hnostop with ⟨_, h⟩
        simpa using h
      have ih := jointGo_stop cfg env maxR rem (s + 1)
        (jointSwapStep cfg maxR s d n (env s)).1
        (jointSwapStep cfg maxR s d n (env s)).2 r (by omega) (by omega)
        (fun k hk1 hk2 => hno k (by omega) hk2) hstop
      simp only [jointGo, hcv, Bool.false_eq_true, if_false, hap,
        Bool.not_true, List.length_cons]
      constructor
      · have := ih.1
        omega
      · exact ih.2

theorem jointGo_head (cfg : JointConfig) (env : Nat → RoundObs) (maxR : Nat)
    (rem : Nat) (d n : AgentName) (round : Nat) (e : RoundRec)
    (h : (jointGo cfg env maxR d n round rem).1[0]? = some e) :
    e = ⟨round, d, n⟩ := by
  match rem with
  | 0 => simp [jointGo] at h
  | rem + 1 =>
    simp only [jointGo] at h
    by_cases hcv : roundConverged cfg (env round) = true
    · rw [if_pos hcv] at h
      replace h : ([(⟨round, d, n⟩ : RoundRec)])[0]? = some e := h
      simp at h
      exact h.symm
    · rw [if_neg hcv] at h
      by_cases hap : (!roundApplyOk cfg (env round)) = true
      · rw [if_pos hap] at h
        replace h : ([(⟨round, d, n⟩ : RoundRec)])[0]? = some e := h
        simp at h
        exact h.symm
      · rw [if_neg hap] at h
        replace h : ((⟨round, d, n⟩ : RoundRec) ::
            (jointGo cfg env maxR
              (jointSwapStep cfg maxR round d n (env round)).1
              (jointSwapStep cfg maxR round d n (env round)).2 (round + 1)
              rem).1)[0]? = some e := h
        simp at h
        exact h.symm

theorem jointGo_get_succ (cfg : JointConfig) (env : Nat → RoundObs)
    (maxR : Nat) :
    ∀ (rem : Nat) (d n : AgentName) (round i : Nat) (e1 e2 : RoundRec),
      (jointGo cfg env maxR d n round rem).1[i]? = some e1 →
      (jointGo cfg env maxR d n round rem).1[i + 1]? = some e2 →
      e2.round = e1.round + 1 ∧
        (e2.driver, e2.navigator) =
          jointSwapStep cfg maxR e1.round e1.driver e1.navigator
            (env e1.round)
  | 0, d, n, round, i, e1, e2, h1, h2 => by simp [jointGo] at h1
  | rem + 1, d, n, round, i, e1, e2, h1, h2 => by
    simp only [jointGo] at h1 h2
    by_cases hcv : roundConverged cfg (env round) = true
    · rw [if_pos hcv] at h2
      replace h2 : ([(⟨round, d, n⟩ : RoundRec)])[i + 1]? = some e2 := h2
      simp at h2
    · rw [if_neg hcv] at h1 h2
      by_cases hap : (!roundApplyOk cfg (env round)) = true
      · rw [if_pos hap] at h2
        replace h2 : ([(⟨round, d, n⟩ : RoundRec)])[i + 1]? = some e2 := h2
        simp at h2
      · rw [if_neg hap] at h1 h2
        replace h1 : ((⟨round, d, n⟩ : RoundRec) ::
            (jointGo cfg env maxR
              (jointSwapStep cfg maxR round d n (env round)).1
              (jointSwapStep cfg maxR round d n (env round)).2 (round + 1)
              rem).1)[i]? = some e1 := h1
        replace h2 : ((⟨round, d, n⟩ : RoundRec) ::
            (jointGo cfg env maxR
              (jointSwapStep cfg maxR round d n (env round)).1
              (jointSwapStep cfg maxR round d n (env round)).2 (round + 1)
              rem).1)[i + 1]? = some e2 := h2
        match i with
        | 0 =>
          simp only [List.getElem?_cons_zero, Option.some.injEq] at h1
          simp only [List.getElem?_cons_succ] at h2
          have he2 := jointGo_head cfg env maxR rem _ _ (round + 1) e2 h2
          subst h1
          rw [he2]
          exact ⟨rfl, rfl⟩
        | i + 1 =>
          simp only [List.getElem?_cons_succ] at h1 h2
          exact jointGo_get_succ cfg env maxR rem _ _ (round + 1) i e1 e2 h1 h2

theorem jointSwapStep_roles (cfg : JointConfig) (maxR round : Nat)
    (d n : AgentName) (obs : RoundObs) (h : n = otherAgent d) :
    (jointSwapStep cfg maxR round d n obs).2 =
      otherAgent (jointSwapStep cfg maxR round d n obs).1 := by
  unfold jointSwapStep
  split_ifs <;> simp [h]

theorem jointGo_roles_inv (cfg : JointConfig) (env : Nat → RoundObs)
    (maxR : Nat) :
    ∀ (rem : Nat) (d n : AgentName) (round : Nat), n = otherAgent d →
      ∀ e ∈ (jointGo cfg env maxR d n round rem).1,
        e.navigator = otherAgent e.driver
  | 0, d, n, round, hinv, e, he => by simp [jointGo] at he
  | rem + 1, d, n, round, hinv, e, he => by
    simp only [jointGo] at he
    split at he
    · simp at he
      rw [he, hinv]
    · split at he
      · simp at he
        rw [he, hinv]
      · simp only [List.mem_cons] at he
        rcases he with he | he
        · rw [he, hinv]
        · exact jointGo_roles_inv cfg env maxR rem _ _ (round + 1)
            (jointSwapStep_roles cfg maxR round d n (env round) hinv) e he

/-! ## Claim C2 — joint-loop stop conditions in order -/

/-- C2: after each joint round, checked in order — (a) an empty
navigator patch with tests absent or passing stops the loop at that very
round (no further rounds, however large `maxRounds` is); (b) a
not-applied navigator patch stops the loop; (c) with swap-on-fail
enabled and the last test run failing, driver and navigator swap for the
next round; (d) otherwise, with unconditional per-round swap enabled and
rounds remaining, they swap. -/
theorem joint_loop_stop_conditions (cfg : JointConfig) (env : Nat → RoundObs)
    (d0 : AgentName) :
    (∀ r, 1 ≤ r → r ≤ cfg.maxRounds.getD 1 →
        (∀ k, 1 ≤ k → k < r → stopsAt cfg (env k) = false) →
        roundConverged cfg (env r) = true →
        (runJoint cfg env d0).trace.length = r ∧
          (runJoint cfg env d0).reason = StopReason.converged) ∧
      (∀ r, 1 ≤ r → r ≤ cfg.maxRounds.getD 1 →
        (∀ k, 1 ≤ k → k < r → stopsAt cfg (env k) = false) →
        roundConverged cfg (env r) = false →
        roundApplyOk cfg (env r) = false →
        (runJoint cfg env d0).trace.length = r ∧
          (runJoint cfg env d0).reason = StopReason.applyFailed) ∧
      (∀ i e1 e2, (runJoint cfg env d0).trace[i]? = some e1 →
        (runJoint cfg env d0).trace[i + 1]? = some e2 →
        cfg.swapDriverOnFail.getD false = true →
        roundTestFailed cfg (env e1.round) = true →
        e2.driver = e1.navigator ∧ e2.navigator = otherAgent e1.navigator) ∧
      (∀ i e1 e2, (runJoint cfg env d0).trace[i]? = some e1 →
        (runJoint cfg env d0).trace[i + 1]? = some e2 →
        (cfg.swapDriverOnFail.getD false &&
          roundTestFailed cfg (env e1.round)) = false →
        cfg.swapDriverEachRound.getD false = true →
        e1.round < cfg.maxRounds.getD 1 →
        e2.driver = e1.navigator ∧ e2.navigator = otherAgent e1.navigator) := by
  have htr : (runJoint cfg env d0).trace =
      (jointGo cfg env (cfg.maxRounds.getD 1) d0 (otherAgent d0) 1
        (cfg.maxRounds.getD 1)).1 := rfl
  have hre : (runJoint cfg env d0).reason =
      (jointGo cfg env (cfg.maxRounds.getD 1) d0 (otherAgent d0) 1
        (cfg.maxRounds.getD 1)).2.2.2 := rfl
  refine ⟨?_, ?_, ?_, ?_⟩
  · intro r hr1 hr2 hno hcv
    have hstop : stopsAt cfg (env r) = true := by
      simp [stopsAt, hcv]
    have h := jointGo_stop cfg env (cfg.maxRounds.getD 1)
      (cfg.maxRounds.getD 1) 1 d0 (otherAgent d0) r hr1 (by omega) hno hstop
    rw [htr, hre]
    refine ⟨by rw [h.1]; omega, ?_⟩
    rw [h.2, if_pos hcv]
  · intro r hr1 hr2 hno hcv hap
    have hstop : stopsAt cfg (env r) = true := by
      simp [stopsAt, hcv, hap]
    have h := jointGo_stop cfg env (cfg.maxRounds.getD 1)
      (cfg.maxRounds.getD 1) 1 d0 (otherAgent d0) r hr1 (by omega) hno hstop
    rw [htr, hre]
    refine ⟨by rw [h.1]; omega, ?_⟩
    rw [h.2, if_neg (by simp [hcv])]
  · intro i e1 e2 h1 h2 hswap hfail
    rw [htr] at h1 h2
    have h := jointGo_get_succ cfg env (cfg.maxRounds.getD 1)
      (cfg.maxRounds.getD 1) d0 (otherAgent d0) 1 i e1 e2 h1 h2
    have hstep := h.2
    rw [jointSwapStep, if_pos (by simp [hswap, hfail])] at hstep
    exact ⟨congrArg Prod.fst hstep, congrArg Prod.snd hstep⟩
  · intro i e1 e2 h1 h2 hnof hse hlt
    rw [htr] at h1 h2
    have h := jointGo_get_succ cfg env (cfg.maxRounds.getD 1)
      (cfg.maxRounds.getD 1) d0 (otherAgent d0) 1 i e1 e2 h1 h2
    have hstep := h.2
    rw [jointSwapStep, if_neg (by simp [hnof]),
      if_pos (by simp [hse, hlt])] at hstep
    exact ⟨congrArg Prod.fst hstep, congrArg Prod.snd hstep⟩

/-- Witness for `joint_loop_stop_conditions`, exercising each of the four
stop/swap conditions at concrete configurations and environments. -/
theorem joint_loop_stop_conditions_witness :
    ((runJoint ⟨some 3, some false, false, some "auto", some false, some false⟩
          (fun _ => ⟨"", 0, true, 0⟩) .codex).trace.length = 1 ∧
        (runJoint ⟨some 3, some false, false, some "auto", some false,
            some false⟩
          (fun _ => ⟨"", 0, true, 0⟩) .codex).reason =
          StopReason.converged) ∧
      ((runJoint ⟨some 3, some false, false, some "manual", some false,
            some false⟩
          (fun _ => ⟨"p", 0, false, 0⟩) .codex).trace.length = 1 ∧
        (runJoint ⟨some 3, some false, false, some "manual", some false,
            some false⟩
          (fun _ => ⟨"p", 0, false, 0⟩) .codex).reason =
          StopReason.applyFailed) ∧
      ((⟨2, .claude, .codex⟩ : RoundRec).driver =
          (⟨1, .codex, .claude⟩ : RoundRec).navigator ∧
        (⟨2, .claude, .codex⟩ : RoundRec).navigator =
          otherAgent (⟨1, .codex, .claude⟩ : RoundRec).navigator) ∧
      ((⟨2, .claude, .codex⟩ : RoundRec).driver =
          (⟨1, .codex, .claude⟩ : RoundRec).navigator ∧
        (⟨2, .claude, .codex⟩ : RoundRec).navigator =
          otherAgent (⟨1, .codex, .claude⟩ : RoundRec).navigator) := by
  refine ⟨?_, ?_, ?_, ?_⟩
  · exact (joint_loop_stop_conditions
        ⟨some 3, some false, false, some "auto", some false, some false⟩
        (fun _ => ⟨"", 0, true, 0⟩) .codex).1 1 (by decide) (by decide)
      (fun k hk1 hk2 => absurd (Nat.lt_of_lt_of_le hk2 hk1) (by omega))
      (by rfl)
  · exact ((joint_loop_stop_conditions
        ⟨some 3, some false, false, some "manual", some false, some false⟩
        (fun _ => ⟨"p", 0, false, 0⟩) .codex).2.1 1 (by decide) (by decide)
      (fun k hk1 hk2 => absurd (Nat.lt_of_lt_of_le hk2 hk1) (by omega))
      (by rfl) (by rfl))
  · exact ((joint_loop_stop_conditions
        ⟨some 2, some true, true, some "auto", some true, some false⟩
        (fun _ => ⟨"p", 0, true, 1⟩) .codex).2.2.1 0 ⟨1, .codex, .claude⟩
      ⟨2, .claude, .codex⟩ (by rfl) (by rfl) (by rfl) (by rfl))
  · exact ((joint_loop_stop_conditions
        ⟨some 2, some false, false, some "auto", some false, some true⟩
        (fun _ => ⟨"p", 0, true, 0⟩) .codex).2.2.2 0 ⟨1, .codex, .claude⟩
      ⟨2, .claude, .codex⟩ (by rfl) (by rfl) (by rfl) (by rfl) (by decide))

/-! ## Claim C9 — the joint phase's final artifact -/

/-- C9 (amended): the joint phase's `meta.json` records the final role
assignment (the driver/navigator variables as they stand after the loop,
including any final swap) together with the configured `maxRounds` as
its round count — not the number of rounds actually executed, which
never exceeds it.  The final patch is the externally computed diff from
the pristine base to the final driver worktree. -/
theorem joint_meta_records (cfg : JointConfig) (env : Nat → RoundObs)
    (d0 : AgentName) :
    (runJoint cfg env d0).meta.rounds = cfg.maxRounds.getD 1 ∧
      (runJoint cfg env d0).meta.driver = (runJoint cfg env d0).finalDriver ∧
      (runJoint cfg env d0).meta.navigator =
        (runJoint cfg env d0).finalNavigator ∧
      (runJoint cfg env d0).trace.length ≤ cfg.maxRounds.getD 1 := by
  refine ⟨rfl, rfl, rfl, ?_⟩
  exact jointGo_len cfg env (cfg.maxRounds.getD 1) (cfg.maxRounds.getD 1) d0
    (otherAgent d0) 1

/-- C9 counterexample to the claim as stated: a run configured for two
rounds that converges after one executed round still records `rounds: 2`
in `meta.json` — the recorded round count is the configured bound, not
the executed count. -/
theorem joint_meta_rounds_counterexample :
    (runJoint ⟨some 2, some false, false, some "auto", some false, some false⟩
        (fun _ => ⟨"", 0, true, 0⟩) .codex).trace.length = 1 ∧
      (runJoint ⟨some 2, some false, false, some "auto", some false,
          some false⟩
        (fun _ => ⟨"", 0, true, 0⟩) .codex).meta.rounds = 2 := by
  constructor <;> rfl

/-! ## Convergence loop lemmas -/

theorem convGo_len (cfg : ConvConfig) (env : Nat → ConvObs) (maxR : Nat) :
    ∀ (rem : Nat) (f c : AgentName) (round : Nat),
      (convGo cfg env maxR f c round rem).length ≤ rem
  | 0, _, _, _ => by simp [convGo]
  | rem + 1, f, c, round => by
    simp only [convGo]
    split
    · simp
    · simp only [List.length_cons]
      have h := convGo_len cfg env maxR rem
        (if round < maxR then (c, otherAgent c) else (f, c)).1
        (if round < maxR then (c, otherAgent c) else (f, c)).2 (round + 1)
      omega

theorem convGo_ne_nil (cfg : ConvConfig) (env : Nat → ConvObs) (maxR : Nat)
    (rem : Nat) (f c : AgentName) (round : Nat) (h : 0 < rem) :
    convGo cfg env maxR f c round rem ≠ [] := by
  match rem with
  | 0 => omega
  | rem + 1 =>
    simp only [convGo]
    split <;> simp

theorem convGo_mem_fresh (cfg : ConvConfig) (env : Nat → ConvObs)
    (maxR : Nat) :
    ∀ (rem : Nat) (f c : AgentName) (round : Nat),
      ∀ e ∈ convGo cfg env maxR f c round rem,
        e.review = convFresh (env e.round) ∧
          e.testExit = convTestExit cfg (env e.round)
  | 0, f, c, round, e, he => by simp [convGo] at he
  | rem + 1, f, c, round, e, he => by
    simp only [convGo] at he
    split at he
    · simp at he
      rw [he]
      exact ⟨rfl, rfl⟩
    · simp only [List.mem_cons] at he
      rcases he with he | he
      · rw [he]
        exact ⟨rfl, rfl⟩
      · exact convGo_mem_fresh cfg env maxR rem _ _ (round + 1) e he

theorem convGo_get_round (cfg : ConvConfig) (env : Nat → ConvObs)
    (maxR : Nat) :
    ∀ (rem : Nat) (f c : AgentName) (round i : Nat) (e : ConvRoundRec),
      (convGo cfg env maxR f c round rem)[i]? = some e → e.round = round + i
  | 0, f, c, round, i, e, h => by simp [convGo] at h
  | rem + 1, f, c, round, i, e, h => by
    simp only [convGo] at h
    split at h
    · match i with
      | 0 =>
        simp at h
        rw [← h]
        simp
      | i + 1 =>
        replace h : (([] : List ConvRoundRec))[i]? = some e := h
        simp at h
    · match i with
      | 0 =>
        simp at h
        rw [← h]
        simp
      | i + 1 =>
        simp only [List.getElem?_cons_succ] at h
        have := convGo_get_round cfg env maxR rem _ _ (round + 1) i e h
        omega

theorem convGo_stop_iff (cfg : ConvConfig) (env : Nat → ConvObs)
    (maxR : Nat) :
    ∀ (rem : Nat) (f c : AgentName) (s i : Nat) (e : ConvRoundRec),
      s + rem = maxR + 1 →
      (convGo cfg env maxR f c s rem)[i]? = some e →
      e.round < maxR →
      ((convGo cfg env maxR f c s rem).length = i + 1 ↔
        convStop e.review e.testExit = true)
  | 0, f, c, s, i, e, _, h, _ => by simp [convGo] at h
  | rem + 1, f, c, s, i, e, hinv, h, hlt => by
    simp only [convGo] at h ⊢
    by_cases hstop :
        convStop (convFresh (env s)) (convTestExit cfg (env s)) = true
    · rw [if_pos hstop] at h ⊢
      match i with
      | 0 =>
        simp only [List.getElem?_cons_zero, Option.some.injEq] at h
        subst h
        simpa using hstop
      | i + 1 =>
        replace h : (([] : List ConvRoundRec))[i]? = some e := h
        simp at h
    · rw [if_neg hstop] at h ⊢
      match i with
      | 0 =>
        simp only [List.getElem?_cons_zero, Option.some.injEq] at h
        subst h
        simp only [List.length_cons]
        constructor
        · intro hlen
          have hnil :
              convGo cfg env maxR
                  (if s < maxR then (c, otherAgent c) else (f, c)).1
                  (if s < maxR then (c, otherAgent c) else (f, c)).2 (s + 1)
                  rem = [] :=
            List.length_eq_zero.mp (by omega)
          have hrem : 0 < rem := by
            simp only [ConvRoundRec.round] at hlt
            omega
          exact absurd hnil (convGo_ne_nil cfg env maxR rem _ _ (s + 1) hrem)
        · intro hc
          exact absurd hc (by simpa using hstop)
      | i + 1 =>
        simp only [List.getElem?_cons_succ] at h
        simp only [List.length_cons]
        have ih := convGo_stop_iff cfg env maxR rem
          (if s < maxR then (c, otherAgent c) else (f, c)).1
          (if s < maxR then (c, otherAgent c) else (f, c)).2 (s + 1) i e
          (by omega) h hlt
        constructor
        · intro hlen
          exact ih.mp (by omega)
        · intro hc
          have := ih.mpr hc
          omega

theorem convGo_roles_inv (cfg : ConvConfig) (env : Nat → ConvObs)
    (maxR : Nat) :
    ∀ (rem : Nat) (f c : AgentName) (round : Nat), c = otherAgent f →
      ∀ e ∈ convGo cfg env maxR f c round rem, e.critic = otherAgent e.fixer
  | 0, f, c, round, hinv, e, he => by simp [convGo] at he
  | rem + 1, f, c, round, hinv, e, he => by
    simp only [convGo] at he
    split at he
    · simp at he
      rw [he, hinv]
    · simp only [List.mem_cons] at he
      rcases he with he | he
      · rw [he, hinv]
      · by_cases hr : round < maxR
        · rw [if_pos hr] at he
          exact convGo_roles_inv cfg env maxR rem c (otherAgent c) (round + 1)
            rfl e he
        · rw [if_neg hr] at he
          exact convGo_roles_inv cfg env maxR rem f c (round + 1) hinv e he

/-- The convergence phase either gates out (empty trace) or is the loop
from round 1 with bound `max 1 (maxRounds ?? 1)`. -/
theorem runConverge_cases (cfg : ConvConfig) (entry : ConvEntry)
    (env : Nat → ConvObs) :
    runConverge cfg entry env = [] ∨
      runConverge cfg entry env =
        convGo cfg env (max 1 (cfg.maxRounds.getD 1)) entry.fixer0
          (otherAgent entry.fixer0) 1 (max 1 (cfg.maxRounds.getD 1)) := by
  unfold runConverge
  split_ifs <;> simp

/-! ## Claim C5 — convergence loop bound, replacement, and stop
condition -/

/-- C5 (amended): for a configured converge `maxRounds = N`, the
convergence loop executes at most `max 1 N` rounds and always terminates
regardless of review content; each executed round's recorded review is
the fresh parse of that round's critic output — a function of the
current round only, replacing rather than merging with the prior
review — and the loop stops early (before the bound) at a round exactly
when that round's review has zero blockers and tests are disabled or
passing. -/
theorem converge_bounded_replacing_reviews (cfg : ConvConfig)
    (entry : ConvEntry) (env : Nat → ConvObs) :
    (runConverge cfg entry env).length ≤ max 1 (cfg.maxRounds.getD 1) ∧
      (∀ e ∈ runConverge cfg entry env,
        e.review = convFresh (env e.round) ∧
          e.testExit = convTestExit cfg (env e.round)) ∧
      (∀ (i : Nat) (e : ConvRoundRec), (runConverge cfg entry env)[i]? = some e →
        e.round < max 1 (cfg.maxRounds.getD 1) →
        ((runConverge cfg entry env).length = e.round ↔
          convStop e.review e.testExit = true)) := by
  rcases runConverge_cases cfg entry env with hcase | hcase
  · rw [hcase]
    refine ⟨by simp, ?_, ?_⟩
    · intro e he
      simp at he
    · intro i e hi
      simp at hi
  · rw [hcase]
    refine ⟨convGo_len cfg env _ _ _ _ _, ?_, ?_⟩
    · exact convGo_mem_fresh cfg env _ _ _ _ _
    · intro i e hi hlt
      have hround := convGo_get_round cfg env _ _ _ _ 1 i e hi
      have hiff := convGo_stop_iff cfg env (max 1 (cfg.maxRounds.getD 1)) _
        entry.fixer0 (otherAgent entry.fixer0) 1 i e (by omega) hi hlt
      rw [hround]
      constructor
      · intro hlen
        exact hiff.mp (by omega)
      · intro hc
        have := hiff.mpr hc
        omega

/-- C5 counterexample to the claim as stated: with `maxRounds` configured
to 0 and a blocking initial review, the loop still executes one round —
more than the configured `N = 0` — because the bound is clamped to at
least 1. -/
theorem converge_zero_rounds_counterexample :
    (runConverge ⟨true, true, some "joint", false, some 0⟩
          ⟨Winner.codex, true, [some ⟨[⟨"B-1", "blocking", none, none⟩], [], ""⟩],
            0, .codex⟩
          (fun _ => ⟨some ⟨[⟨"B-1", "blocking", none, none⟩], [], ""⟩, 0⟩)).length =
        1 ∧
      ¬((runConverge ⟨true, true, some "joint", false, some 0⟩
            ⟨Winner.codex, true,
              [some ⟨[⟨"B-1", "blocking", none, none⟩], [], ""⟩], 0, .codex⟩
            (fun _ =>
              ⟨some ⟨[⟨"B-1", "blocking", none, none⟩], [], ""⟩, 0⟩)).length ≤
          0) := by
  constructor
  · rfl
  · decide

/-- Witness for `converge_bounded_replacing_reviews` at a concrete
blocked-then-clean two-round run. -/
theorem converge_bounded_replacing_reviews_witness :
    (runConverge ⟨true, true, some "joint", false, some 3⟩
          ⟨Winner.codex, true, [some ⟨[⟨"B-1", "blocking", none, none⟩], [], ""⟩],
            0, .codex⟩
          (fun _ => ⟨some ⟨[], [], ""⟩, 0⟩)).length ≤
        max 1 ((some 3 : Option Nat).getD 1) ∧
      (∀ e ∈ runConverge ⟨true, true, some "joint", false, some 3⟩
            ⟨Winner.codex, true,
              [some ⟨[⟨"B-1", "blocking", none, none⟩], [], ""⟩], 0, .codex⟩
            (fun _ => ⟨some ⟨[], [], ""⟩, 0⟩),
        e.review = convFresh ⟨some ⟨[], [], ""⟩, 0⟩ ∧
          e.testExit =
            convTestExit ⟨true, true, some "joint", false, some 3⟩
              ⟨some ⟨[], [], ""⟩, 0⟩) ∧
      (∀ (i : Nat) (e : ConvRoundRec),
        (runConverge ⟨true, true, some "joint", false, some 3⟩
            ⟨Winner.codex, true,
              [some ⟨[⟨"B-1", "blocking", none, none⟩], [], ""⟩], 0, .codex⟩
            (fun _ => ⟨some ⟨[], [], ""⟩, 0⟩))[i]? = some e →
        e.round < max 1 ((some 3 : Option Nat).getD 1) →
        ((runConverge ⟨true, true, some "joint", false, some 3⟩
              ⟨Winner.codex, true,
                [some ⟨[⟨"B-1", "blocking", none, none⟩], [], ""⟩], 0, .codex⟩
              (fun _ => ⟨some ⟨[], [], ""⟩, 0⟩)).length = e.round ↔
          convStop e.review e.testExit = true)) :=
  converge_bounded_replacing_reviews ⟨true, true, some "joint", false, some 3⟩
    ⟨Winner.codex, true, [some ⟨[⟨"B-1", "blocking", none, none⟩], [], ""⟩], 0,
      .codex⟩
    (fun _ => ⟨some ⟨[], [], ""⟩, 0⟩)

/-! ## Claim C10 — the two roles are always distinct agents -/

/-- C10: `otherAgent` is an involution with no fixed point, so in every
executed round of the joint loop the navigator is the other agent of the
driver (hence driver ≠ navigator), and in every executed round of the
convergence loop the critic is the other agent of the fixer (hence
fixer ≠ critic), including after any role swap. -/
theorem roles_always_distinct :
    (∀ a, otherAgent (otherAgent a) = a) ∧
      (∀ a, otherAgent a ≠ a) ∧
      (∀ (cfg : JointConfig) (env : Nat → RoundObs) (d0 : AgentName),
        ∀ e ∈ (runJoint cfg env d0).trace,
          e.navigator = otherAgent e.driver ∧ e.driver ≠ e.navigator) ∧
      (∀ (cfg : ConvConfig) (entry : ConvEntry) (env : Nat → ConvObs),
        ∀ e ∈ runConverge cfg entry env,
          e.critic = otherAgent e.fixer ∧ e.fixer ≠ e.critic) := by
  have hne : ∀ a : AgentName, otherAgent a ≠ a := by
    intro a
    cases a <;> simp [otherAgent]
  refine ⟨fun a => by cases a <;> rfl, hne, ?_, ?_⟩
  · intro cfg env d0 e he
    have hinv := jointGo_roles_inv cfg env (cfg.maxRounds.getD 1)
      (cfg.maxRounds.getD 1) d0 (otherAgent d0) 1 rfl e he
    refine ⟨hinv, ?_⟩
    intro hcontra
    exact hne e.driver (by rw [← hinv, ← hcontra])
  · intro cfg entry env e he
    rcases runConverge_cases cfg entry env with hcase | hcase
    · rw [hcase] at he
      simp at he
    · rw [hcase] at he
      have hinv := convGo_roles_inv cfg env (max 1 (cfg.maxRounds.getD 1)) _
        entry.fixer0 (otherAgent entry.fixer0) 1 rfl e he
      refine ⟨hinv, ?_⟩
      intro hcontra
      exact hne e.fixer (by rw [← hinv, ← hcontra])

/-- Witness for `roles_always_distinct` at a concrete joint run and a
concrete convergence run. -/
theorem roles_always_distinct_witness :
    otherAgent (otherAgent .codex) = .codex ∧
      otherAgent .codex ≠ .codex ∧
      ((⟨1, .codex, .claude⟩ : RoundRec).navigator =
          otherAgent (⟨1, .codex, .claude⟩ : RoundRec).driver ∧
        (⟨1, .codex, .claude⟩ : RoundRec).driver ≠
          (⟨1, .codex, .claude⟩ : RoundRec).navigator) ∧
      ((⟨1, .codex, .claude⟩ : RoundRec).navigator =
          otherAgent (⟨1, .codex, .claude⟩ : RoundRec).driver ∧
        (⟨1, .codex, .claude⟩ : RoundRec).driver ≠
          (⟨1, .codex, .claude⟩ : RoundRec).navigator) :=
  ⟨roles_always_distinct.1 .codex, roles_always_distinct.2.1 .codex,
    roles_always_distinct.2.2.1
      ⟨some 1, some false, false, some "auto", some false, some false⟩
      (fun _ => ⟨"p", 0, true, 0⟩) .codex ⟨1, .codex, .claude⟩ (by decide),
    roles_always_distinct.2.2.1
      ⟨some 1, some false, false, some "auto", some false, some false⟩
      (fun _ => ⟨"p", 0, true, 0⟩) .codex ⟨1, .codex, .claude⟩ (by decide)⟩

end Duet
